import Mathlib

/-!
Shallow embedding of the conversation-context cache of the
cf-workers-wechat-gpt repository.

The repository contains three handler variants:
* the hybrid memory + KV variant (source file with `updateHistoryHybrid`,
  `getHistoryHybrid`), modelled in namespace `Hybrid`;
* the pure in-memory variant (source file with `getHistory` /
  `updateHistory` over a process-local map), modelled in namespace
  `MemoryCache`;
* the KV-only variant `workerWithChat.js` (with `trimHistory`,
  `getHistory`, and an inline fetch path that mutates the history around
  the provider call), modelled in namespace `WWC`.

JavaScript machine details that matter are made explicit: array
`slice(-n)` / `slice(len - n)` becomes `List.drop`, the possibly negative
`changeCount` subtraction is carried out on `Int`, `JSON.parse` outcomes
are an explicit sum, and the un-awaited Promise used as an `if` condition
in `workerWithChat.js` is a value whose JavaScript truthiness is always
`true`.
-/

namespace CFWechat

/-- Message roles appearing in provider payloads and stored histories. -/
inductive Role where
  | user
  | assistant
  | system
deriving DecidableEq, Repr

/-- One chat message: `{ role, content }`. -/
structure Turn where
  role : Role
  content : String
deriving DecidableEq, Repr

/-- Outcome of reading the durable KV binding for a user:
the binding may be absent (falsy `kvNamespace`), the `get` may throw,
return `null`/empty (falsy `kvData`), or return a string payload. -/
inductive KVRead where
  | noNamespace
  | readError
  | miss
  | found (s : String)
deriving DecidableEq, Repr

/-- A deserialized JSON value, quotiented to what the code inspects:
`Array.isArray(x)` is the only test applied, so all non-array values are
one constructor. -/
inductive JSValue where
  | arr (l : List Turn)
  | nonArray
deriving DecidableEq, Repr

namespace Hybrid

/-- `CACHE_TTL = 10 * 60 * 1000` (10 minutes, in ms). -/
def CACHE_TTL : Nat := 10 * 60 * 1000

/-- `MAX_HISTORY_MESSAGES = 4`: keep the most recent 4 messages. -/
def MAX_HISTORY_MESSAGES : Nat := 4

/-- `KV_WRITE_THRESHOLD = 2`: write KV only when the history changed by
at least 2 entries since the last sync. -/
def KV_WRITE_THRESHOLD : Nat := 2

/-- The per-user value stored in `chatCache`:
`{ history, expireAt, kvVersion }`. -/
structure Record where
  history : List Turn
  expireAt : Nat
  kvVersion : Nat
deriving DecidableEq, Repr

/-- `getHistoryHybrid (userId, kvNamespace)`, with the ambient state made
explicit: `cached` is `chatCache.get(userId)`, `now` is `Date.now()`,
`kv` is the outcome of the KV read, and `parse` models `JSON.parse`
(`none` = parse threw). Returns the history handed to the caller paired
with the cache entry left behind for this user (`none` = entry deleted
or never created). -/
def getHistoryHybrid (cached : Option Record) (now : Nat) (kv : KVRead)
    (parse : String → Option JSValue) : List Turn × Option Record :=
  match cached with
  | some c =>
    if c.expireAt > now then
      (c.history, some c)
    else
      coldLoad now kv parse
  | none => coldLoad now kv parse
where
  /-- The path after `chatCache.delete(userId)`: consult KV if bound. -/
  coldLoad (now : Nat) (kv : KVRead) (parse : String → Option JSValue) :
      List Turn × Option Record :=
    match kv with
    | .noNamespace => ([], none)
    | .readError => ([], none)
    | .miss => ([], none)
    | .found s =>
      match parse s with
      | some (.arr history) =>
        (history, some ⟨history, now + CACHE_TTL, history.length⟩)
      | some .nonArray => ([], none)
      | none => ([], none)

/-- `cached ? [...cached.history] : []` — the history the write path
starts from. -/
def cachedHistory : Option Record → List Turn
  | some c => c.history
  | none => []

/-- `cached?.kvVersion || 0` — the sync mark the write path preserves. -/
def cachedKvVersion : Option Record → Nat
  | some c => c.kvVersion
  | none => 0

/-- The synchronous body of `updateHistoryHybrid (userId, userMsg,
assistantReply, kvNamespace, ctx)`: append the two turns, trim with
`slice(-MAX_HISTORY_MESSAGES)`, store the record with the old
`kvVersion`, and decide whether a KV write is scheduled
(`changeCount = history.length - kvVersion >= KV_WRITE_THRESHOLD`,
computed on `Int` as in JavaScript). Returns the stored record and
whether a write was scheduled. -/
def updateCore (cached : Option Record) (userMsg assistantReply : String)
    (now : Nat) (kvNamespace : Bool) : Record × Bool :=
  let history0 := cachedHistory cached
  let kvVersion : Nat := cachedKvVersion cached
  let h1 := history0 ++ [⟨Role.user, userMsg⟩, ⟨Role.assistant, assistantReply⟩]
  let history :=
    if h1.length > MAX_HISTORY_MESSAGES then
      h1.drop (h1.length - MAX_HISTORY_MESSAGES)
    else h1
  let triggered :=
    kvNamespace &&
      decide ((history.length : Int) - (kvVersion : Int) ≥ (KV_WRITE_THRESHOLD : Int))
  (⟨history, now + CACHE_TTL, kvVersion⟩, triggered)

/-- `updateHistoryHybrid` with the scheduled KV write resolved in place:
when a write was scheduled and `writeSucceeds`, the `.then` callback sets
`kvVersion` to the written history length (our single-user model applies
it to the record just stored). Returns the resulting record and whether
a write was scheduled. -/
def updateHistoryHybrid (cached : Option Record) (userMsg assistantReply : String)
    (now : Nat) (kvNamespace writeSucceeds : Bool) : Record × Bool :=
  let r := updateCore cached userMsg assistantReply now kvNamespace
  if r.2 && writeSucceeds then
    ({ r.1 with kvVersion := r.1.history.length }, r.2)
  else
    (r.1, r.2)

/-- Events the cache entry of a single user can undergo: a cold load from a KV
array payload (applies only when no live entry exists), a recorded
conversation turn, and disappearance (expiry sweep or lazy deletion). -/
inductive CacheEvent where
  | coldLoad (payload : List Turn) (now : Nat)
  | turn (userMsg assistantReply : String) (now : Nat) (kvNamespace writeSucceeds : Bool)
  | expireDrop
deriving DecidableEq, Repr

/-- One event applied to the (optional) cache entry of one user. -/
def stepEvent (c : Option Record) (e : CacheEvent) : Option Record :=
  match e, c with
  | .coldLoad payload now, none => some ⟨payload, now + CACHE_TTL, payload.length⟩
  | .coldLoad _ _, some r => some r
  | .turn u a now kv ws, c => some (updateHistoryHybrid c u a now kv ws).1
  | .expireDrop, _ => none

/-- Run a sequence of cache events from a starting entry. -/
def runEvents (c : Option Record) (es : List CacheEvent) : Option Record :=
  es.foldl stepEvent c

/-- One recorded turn `(userMsg, assistantReply, now, kvNamespace,
writeSucceeds)` applied to an accumulator carrying the cache entry and
whether any KV write has been scheduled so far. -/
def turnFold (acc : Option Record × Bool)
    (t : String × String × Nat × Bool × Bool) : Option Record × Bool :=
  let r := updateHistoryHybrid acc.1 t.1 t.2.1 t.2.2.1 t.2.2.2.1 t.2.2.2.2
  (some r.1, acc.2 || r.2)

/-- Run a sequence of recorded turns, tracking whether any KV write was
scheduled along the way. -/
def runTurns (c : Option Record) (ts : List (String × String × Nat × Bool × Bool)) :
    Option Record × Bool :=
  ts.foldl turnFold (c, false)

/-- The sync-mark invariant of the specification, together with the
length bound it rides on: `durableSyncMark <= len(history)` and
`len(history) <= H_max`. -/
def SyncInv (r : Record) : Prop :=
  r.kvVersion ≤ r.history.length ∧ r.history.length ≤ MAX_HISTORY_MESSAGES

/-- A durable payload of six messages (three whole exchanges), longer
than `MAX_HISTORY_MESSAGES`: the KV store is an external collaborator
and nothing in the read path trims or rejects such a payload. -/
def overlongPayload : List Turn :=
  [⟨Role.user, "a"⟩, ⟨Role.assistant, "b"⟩, ⟨Role.user, "c"⟩,
   ⟨Role.assistant, "d"⟩, ⟨Role.user, "e"⟩, ⟨Role.assistant, "f"⟩]

/-- Cold-load the six-message payload, then record one turn. -/
def overlongTrace : List CacheEvent :=
  [.coldLoad overlongPayload 0, .turn "g" "h" 0 true true]

/-- A trace whose cold load respects the `MAX_HISTORY_MESSAGES` bound. -/
def boundedTrace : List CacheEvent :=
  [.coldLoad [⟨Role.user, "a"⟩, ⟨Role.assistant, "b"⟩] 0,
   .turn "c" "d" 5 true true]

/-- A saturated record: full history, fully synced. -/
def satRec : Record :=
  ⟨[⟨Role.user, "a"⟩, ⟨Role.assistant, "b"⟩, ⟨Role.user, "c"⟩,
    ⟨Role.assistant, "d"⟩], 600000, 4⟩

/-- Two further turns against the saturated record. -/
def satTurns : List (String × String × Nat × Bool × Bool) :=
  [("e", "f", 0, true, true), ("g", "h", 1, true, true)]

/-- The record left by `boundedTrace`: trimmed to 4 messages and fully
synced by the successful KV write of the second event. -/
def boundedTraceResult : Record :=
  ⟨[Turn.mk Role.user "a", Turn.mk Role.assistant "b",
    Turn.mk Role.user "c", Turn.mk Role.assistant "d"], 600005, 4⟩

/-- The record left by one recorded turn from an empty cache. -/
def oneTurnRecord : Record :=
  ⟨[Turn.mk Role.user "x", Turn.mk Role.assistant "y"], 600000, 2⟩

/-- A record whose `expireAt` lies in the past relative to `now = 11`. -/
def expiredRec : Record := ⟨[Turn.mk Role.user "old", Turn.mk Role.assistant "old"], 10, 2⟩

end Hybrid

namespace MemoryCache

/-- `CACHE_TTL = 10 * 60 * 1000` in the pure-memory variant. -/
def CACHE_TTL : Nat := 10 * 60 * 1000

/-- `MAX_HISTORY = 4`: keep 4 exchanges, i.e. `MAX_HISTORY * 2 = 8`
messages. -/
def MAX_HISTORY : Nat := 4

/-- The per-user value stored in the pure-memory `chatCache`:
`{ history, expireAt }`. -/
structure Record where
  history : List Turn
  expireAt : Nat
deriving DecidableEq, Repr

/-- `getHistory (userId)` with the ambient state explicit: return the
cached history when the entry exists and is not expired, otherwise
delete it and return `[]`. The second component is the cache entry left
behind. -/
def getHistory (cached : Option Record) (now : Nat) : List Turn × Option Record :=
  match cached with
  | some c => if c.expireAt > now then (c.history, some c) else ([], none)
  | none => ([], none)

/-- `updateHistory (userId, userMsg, assistantReply)`: start from
`getHistory`, append the two turns, trim with `slice(-MAX_HISTORY * 2)`,
and store with a refreshed expiry. Returns the stored record. -/
def updateHistory (cached : Option Record) (userMsg assistantReply : String)
    (now : Nat) : Record :=
  let history0 := (getHistory cached now).1
  let h1 := history0 ++ [⟨Role.user, userMsg⟩, ⟨Role.assistant, assistantReply⟩]
  let history :=
    if h1.length > MAX_HISTORY * 2 then
      h1.drop (h1.length - MAX_HISTORY * 2)
    else h1
  ⟨history, now + CACHE_TTL⟩

/-- A record whose `expireAt` lies in the past relative to `now = 11`. -/
def expiredRec : Record := ⟨[Turn.mk Role.user "old", Turn.mk Role.assistant "old"], 10⟩

end MemoryCache

namespace WWC

/-- `trimHistory (history, limit)` restricted to array inputs:
`history.slice(history.length - limit)` when `history.length > limit`,
otherwise `history` unchanged. -/
def trimList (history : List Turn) (limit : Nat) : List Turn :=
  if history.length > limit then history.drop (history.length - limit) else history

/-- `trimHistory (history, limit)` of `workerWithChat.js`: a non-array
input yields `[]` (defensive deserialization guard); an array is trimmed
to its last `limit` entries. -/
def trimHistory (history : JSValue) (limit : Nat) : List Turn :=
  match history with
  | .arr h => trimList h limit
  | .nonArray => []

/-- `getHistory (userId, kvNamespace)` of `workerWithChat.js`:
missing `userId` or missing binding, a read error, a missing entry, a
payload that does not parse, or a non-array payload all yield `[]`. -/
def getHistory (userIdTruthy : Bool) (kv : KVRead)
    (parse : String → Option JSValue) : List Turn :=
  if !userIdTruthy then
    []
  else
    match kv with
    | .noNamespace => []
    | .readError => []
    | .miss => []
    | .found s =>
      match parse s with
      | some (.arr h) => h
      | some .nonArray => []
      | none => []

/-- The provider payload built by `chatWithOpenAI (msg, env, history)`:
`[{ role: system, .. }, ...history, { role: user, content: msg }]`. -/
def chatWithOpenAIMessages (systemPrompt : String) (history : List Turn)
    (msg : String) : List Turn :=
  ⟨Role.system, systemPrompt⟩ :: history ++ [⟨Role.user, msg⟩]

/-- The fetch-path mutation of `conversationHistory` around the provider
call in `workerWithChat.js`: push the user turn, trim, (provider call
happens here), push the assistant turn, trim. The result is what
`updateHistory` persists for the user. -/
def fetchRecordTurn (history : List Turn) (userMsg reply : String)
    (historyLimit : Nat) : List Turn :=
  let afterUser := trimList (history ++ [⟨Role.user, userMsg⟩]) historyLimit
  trimList (afterUser ++ [⟨Role.assistant, reply⟩]) historyLimit

/-- The history value in scope at the provider call on the fetch path:
the stored history with the new user turn already pushed and trimmed. -/
def historyAtProviderCall (history : List Turn) (userMsg : String)
    (historyLimit : Nat) : List Turn :=
  trimList (history ++ [⟨Role.user, userMsg⟩]) historyLimit

/-- Run a sequence of `(userMsg, reply)` fetch-path turns for one user,
starting from a stored history. -/
def runFetchTurns (history : List Turn) (ts : List (String × String))
    (historyLimit : Nat) : List Turn :=
  ts.foldl (fun h t => fetchRecordTurn h t.1 t.2 historyLimit) history

/-- A JavaScript Promise holding an eventual boolean. `checkSignature`
returns one of these; the GET path of `workerWithChat.js` uses it
directly as an `if` condition without `await`. -/
structure JSPromiseBool where
  eventual : Bool
deriving DecidableEq, Repr

/-- JavaScript truthiness of a Promise object: every object is truthy. -/
def promiseTruthy (_p : JSPromiseBool) : Bool := true

/-- `checkSignature (signature, timestamp, nonce, token)`: SHA-1 of the
sorted concatenation, compared with the signature — wrapped in a Promise.
The digest itself is an opaque parameter `sha1hex`. -/
def checkSignature (signature timestamp nonce token : String)
    (sha1hex : String → String) : JSPromiseBool :=
  let tempStr := (List.mergeSort [token, timestamp, nonce] (fun a b => a ≤ b)).foldl
    (fun acc s => acc ++ s) ""
  ⟨sha1hex tempStr == signature⟩

/-- A simplified HTTP response: status and body. -/
structure Resp where
  status : Nat
  body : String
deriving DecidableEq, Repr

/-- The GET branch of `workerWithChat.js` `fetch` (after the crawler
filter): `if (checkSignature(...)) return 200/echostr else 403`, where
the condition is the un-awaited Promise. -/
def handleGet (signature timestamp nonce echostr token : String)
    (sha1hex : String → String) : Resp :=
  if promiseTruthy (checkSignature signature timestamp nonce token sha1hex) then
    ⟨200, echostr⟩
  else
    ⟨403, "Invalid signature"⟩

end WWC

/-! Pair structure of histories: the ordering invariant of the
specification says a stored history is a concatenation of
(user, assistant) exchanges. -/

/-- The successor role in a well-formed alternation. -/
def nextRole : Role → Role
  | .user => .assistant
  | .assistant => .user
  | .system => .system

/-- `alternatesFrom r h` checks that the roles of `h` are
`r, nextRole r, r, …`. The ordering invariant for a stored history is
`alternatesFrom .user`. -/
def alternatesFrom : Role → List Turn → Bool
  | _, [] => true
  | r, t :: ts => (t.role == r) && alternatesFrom (nextRole r) ts

/-- Flatten a list of (user text, assistant text) exchanges into a
history. -/
def pairFlat : List (String × String) → List Turn
  | [] => []
  | (u, a) :: ps => ⟨Role.user, u⟩ :: ⟨Role.assistant, a⟩ :: pairFlat ps

/-- A history made of whole (user, assistant) exchanges. -/
def IsPaired (h : List Turn) : Prop :=
  ∃ ps, h = pairFlat ps

theorem pairFlat_append (ps qs : List (String × String)) :
    pairFlat (ps ++ qs) = pairFlat ps ++ pairFlat qs := by
  induction ps with
  | nil => rfl
  | cons p ps ih => cases p; simp [pairFlat, ih]

theorem isPaired_nil : IsPaired [] := ⟨[], rfl⟩

theorem isPaired_append_pair {h : List Turn} (hp : IsPaired h) (u a : String) :
    IsPaired (h ++ [⟨Role.user, u⟩, ⟨Role.assistant, a⟩]) := by
  obtain ⟨ps, rfl⟩ := hp
  exact ⟨ps ++ [(u, a)], by simp [pairFlat_append, pairFlat]⟩

theorem isPaired_drop_two {h : List Turn} (hp : IsPaired h) :
    IsPaired (h.drop 2) := by
  obtain ⟨ps, rfl⟩ := hp
  cases ps with
  | nil => exact ⟨[], rfl⟩
  | cons p ps => cases p; exact ⟨ps, rfl⟩

theorem isPaired_length_even {h : List Turn} (hp : IsPaired h) :
    h.length % 2 = 0 := by
  obtain ⟨ps, rfl⟩ := hp
  induction ps with
  | nil => rfl
  | cons p ps ih =>
    cases p
    simp only [pairFlat, List.length_cons]
    omega

theorem isPaired_alternates {h : List Turn} (hp : IsPaired h) :
    alternatesFrom .user h = true := by
  obtain ⟨ps, rfl⟩ := hp
  induction ps with
  | nil => rfl
  | cons p ps ih => cases p; simpa [pairFlat, alternatesFrom, nextRole] using ih

theorem isPaired_drop_even {h : List Turn} (hp : IsPaired h) (k : Nat)
    (hk : k % 2 = 0) : IsPaired (h.drop k) := by
  induction k using Nat.strong_induction_on generalizing h with
  | _ k ih =>
    match k, hk with
    | 0, _ => simpa using hp
    | (j + 2), hk =>
      have h2 : (j + 2) % 2 = j % 2 := by omega
      have hj : j % 2 = 0 := by omega
      have : List.drop (j + 2) h = List.drop j (List.drop 2 h) := by
        rw [List.drop_drop, Nat.add_comm]
      rw [this]
      exact ih j (by omega) (isPaired_drop_two hp) hj

namespace Hybrid

theorem updateCore_history (c : Option Record) (u a : String) (now : Nat) (kv : Bool) :
    ((updateCore c u a now kv).1).history =
      (if (cachedHistory c ++ [Turn.mk Role.user u, Turn.mk Role.assistant a]).length >
          MAX_HISTORY_MESSAGES then
        (cachedHistory c ++ [Turn.mk Role.user u, Turn.mk Role.assistant a]).drop
          ((cachedHistory c ++ [Turn.mk Role.user u, Turn.mk Role.assistant a]).length -
            MAX_HISTORY_MESSAGES)
      else cachedHistory c ++ [Turn.mk Role.user u, Turn.mk Role.assistant a]) := rfl

theorem updateCore_kvVersion (c : Option Record) (u a : String) (now : Nat) (kv : Bool) :
    ((updateCore c u a now kv).1).kvVersion = cachedKvVersion c := rfl

theorem updateCore_snd (c : Option Record) (u a : String) (now : Nat) (kv : Bool) :
    (updateCore c u a now kv).2 =
      (kv && decide ((((updateCore c u a now kv).1).history.length : Int) -
        (cachedKvVersion c : Int) ≥ (KV_WRITE_THRESHOLD : Int))) := rfl

theorem updateCore_length (c : Option Record) (u a : String) (now : Nat) (kv : Bool) :
    ((updateCore c u a now kv).1).history.length =
      min ((cachedHistory c).length + 2) MAX_HISTORY_MESSAGES := by
  rw [updateCore_history]
  by_cases h : (cachedHistory c ++ [Turn.mk Role.user u, Turn.mk Role.assistant a]).length >
      MAX_HISTORY_MESSAGES
  · rw [if_pos h]
    simp only [List.length_drop, List.length_append, List.length_cons,
      List.length_nil, MAX_HISTORY_MESSAGES] at h ⊢
    omega
  · rw [if_neg h]
    simp only [List.length_append, List.length_cons, List.length_nil,
      MAX_HISTORY_MESSAGES] at h ⊢
    omega

theorem updateHistoryHybrid_eq (c : Option Record) (u a : String) (now : Nat)
    (kv ws : Bool) :
    updateHistoryHybrid c u a now kv ws =
      (if (updateCore c u a now kv).2 && ws then
        ({ (updateCore c u a now kv).1 with
            kvVersion := ((updateCore c u a now kv).1).history.length },
          (updateCore c u a now kv).2)
      else ((updateCore c u a now kv).1, (updateCore c u a now kv).2)) := rfl

theorem updateHistoryHybrid_history (c : Option Record) (u a : String) (now : Nat)
    (kv ws : Bool) :
    ((updateHistoryHybrid c u a now kv ws).1).history =
      ((updateCore c u a now kv).1).history := by
  rw [updateHistoryHybrid_eq]
  split <;> rfl

theorem updateHistoryHybrid_snd (c : Option Record) (u a : String) (now : Nat)
    (kv ws : Bool) :
    (updateHistoryHybrid c u a now kv ws).2 = (updateCore c u a now kv).2 := by
  rw [updateHistoryHybrid_eq]
  split <;> rfl

theorem updateHistoryHybrid_kvVersion (c : Option Record) (u a : String) (now : Nat)
    (kv ws : Bool) :
    ((updateHistoryHybrid c u a now kv ws).1).kvVersion = cachedKvVersion c ∨
      ((updateHistoryHybrid c u a now kv ws).1).kvVersion =
        ((updateCore c u a now kv).1).history.length := by
  rw [updateHistoryHybrid_eq]
  split
  · right; rfl
  · left
    exact updateCore_kvVersion c u a now kv

theorem syncInv_turn (c : Option Record) (hc : ∀ r, c = some r → SyncInv r)
    (u a : String) (now : Nat) (kv ws : Bool) :
    SyncInv (updateHistoryHybrid c u a now kv ws).1 := by
  have hkvv : cachedKvVersion c ≤ (cachedHistory c).length ∧
      (cachedHistory c).length ≤ MAX_HISTORY_MESSAGES ∨ cachedKvVersion c = 0 := by
    cases c with
    | none => right; rfl
    | some r => left; exact hc r rfl
  have hlen : ((updateHistoryHybrid c u a now kv ws).1).history.length =
      min ((cachedHistory c).length + 2) MAX_HISTORY_MESSAGES := by
    rw [updateHistoryHybrid_history, updateCore_length]
  have hver := updateHistoryHybrid_kvVersion c u a now kv ws
  rw [updateCore_length] at hver
  unfold SyncInv
  constructor
  · rcases hver with h | h
    · rw [hlen, h]
      rcases hkvv with ⟨h1, h2⟩ | h3
      · simp only [MAX_HISTORY_MESSAGES] at h1 h2 ⊢
        omega
      · rw [h3]
        exact Nat.zero_le _
    · rw [hlen, h]
  · rw [hlen]
    simp only [MAX_HISTORY_MESSAGES]
    omega

theorem syncInv_stepEvent (c : Option Record) (hc : ∀ r, c = some r → SyncInv r)
    (e : CacheEvent)
    (he : ∀ p n, e = CacheEvent.coldLoad p n → p.length ≤ MAX_HISTORY_MESSAGES) :
    ∀ r, stepEvent c e = some r → SyncInv r := by
  intro r hr
  cases e with
  | coldLoad p n =>
    cases c with
    | none =>
      simp only [stepEvent, Option.some.injEq] at hr
      subst hr
      exact ⟨Nat.le_refl _, he p n rfl⟩
    | some r0 =>
      simp only [stepEvent, Option.some.injEq] at hr
      subst hr
      exact hc r0 rfl
  | turn u a now kv ws =>
    simp only [stepEvent, Option.some.injEq] at hr
    subst hr
    exact syncInv_turn c hc u a now kv ws
  | expireDrop =>
    simp only [stepEvent] at hr
    exact Option.noConfusion hr

theorem syncInv_runEvents (es : List CacheEvent) :
    ∀ c : Option Record, (∀ r, c = some r → SyncInv r) →
      (∀ p n, CacheEvent.coldLoad p n ∈ es → p.length ≤ MAX_HISTORY_MESSAGES) →
      ∀ r, runEvents c es = some r → SyncInv r := by
  induction es with
  | nil => intro c hc _ r hr; exact hc r hr
  | cons e es ih =>
    intro c hc hes r hr
    have he : ∀ p n, e = CacheEvent.coldLoad p n → p.length ≤ MAX_HISTORY_MESSAGES := by
      intro p n hpn; exact hes p n (by rw [hpn]; exact List.mem_cons_self _ _)
    exact ih (stepEvent c e) (syncInv_stepEvent c hc e he)
      (fun p n hmem => hes p n (List.mem_cons_of_mem _ hmem)) r hr

theorem isPaired_turn (c : Option Record)
    (hc : ∀ r, c = some r → IsPaired r.history) (u a : String) (now : Nat)
    (kv ws : Bool) :
    IsPaired ((updateHistoryHybrid c u a now kv ws).1).history := by
  have hp0 : IsPaired (cachedHistory c) := by
    cases c with
    | none => exact isPaired_nil
    | some r => exact hc r rfl
  have hev := isPaired_length_even hp0
  have hp1 : IsPaired (cachedHistory c ++ [Turn.mk Role.user u, Turn.mk Role.assistant a]) :=
    isPaired_append_pair hp0 u a
  rw [updateHistoryHybrid_history, updateCore_history]
  by_cases h : (cachedHistory c ++ [Turn.mk Role.user u, Turn.mk Role.assistant a]).length >
      MAX_HISTORY_MESSAGES
  · rw [if_pos h]
    apply isPaired_drop_even hp1
    simp only [List.length_append, List.length_cons, List.length_nil,
      MAX_HISTORY_MESSAGES] at h ⊢
    omega
  · rw [if_neg h]
    exact hp1

theorem isPaired_turnFold (ts : List (String × String × Nat × Bool × Bool)) :
    ∀ (c : Option Record) (b : Bool),
      (∀ r, c = some r → IsPaired r.history) →
      ∀ r, (ts.foldl turnFold (c, b)).1 = some r → IsPaired r.history := by
  induction ts with
  | nil => intro c b hc r hr; exact hc r hr
  | cons t ts ih =>
    intro c b hc r hr
    refine ih _ _ ?_ r hr
    intro r1 hr1
    simp only [turnFold, Option.some.injEq] at hr1
    subst hr1
    exact isPaired_turn c hc t.1 t.2.1 t.2.2.1 t.2.2.2.1 t.2.2.2.2

theorem saturated_turn (r : Record) (h4 : r.history.length = MAX_HISTORY_MESSAGES)
    (hk : r.kvVersion = MAX_HISTORY_MESSAGES) (u a : String) (now : Nat) (kv ws : Bool) :
    ((updateHistoryHybrid (some r) u a now kv ws).1).history.length = MAX_HISTORY_MESSAGES ∧
      ((updateHistoryHybrid (some r) u a now kv ws).1).kvVersion = MAX_HISTORY_MESSAGES ∧
      (updateHistoryHybrid (some r) u a now kv ws).2 = false := by
  have hlen : ((updateCore (some r) u a now kv).1).history.length = MAX_HISTORY_MESSAGES := by
    rw [updateCore_length]
    simp only [cachedHistory, h4, MAX_HISTORY_MESSAGES]
    omega
  have htrig : (updateCore (some r) u a now kv).2 = false := by
    rw [updateCore_snd, hlen]
    have hno : ¬ ((MAX_HISTORY_MESSAGES : Int) - (cachedKvVersion (some r) : Int) ≥
        (KV_WRITE_THRESHOLD : Int)) := by
      simp only [cachedKvVersion, hk, MAX_HISTORY_MESSAGES, KV_WRITE_THRESHOLD]
      omega
    simp [hno]
  refine ⟨?_, ?_, ?_⟩
  · rw [updateHistoryHybrid_history]; exact hlen
  · rw [updateHistoryHybrid_eq]
    simp [htrig, updateCore_kvVersion, cachedKvVersion, hk]
  · rw [updateHistoryHybrid_snd]; exact htrig

theorem saturated_turnFold (ts : List (String × String × Nat × Bool × Bool)) :
    ∀ (r : Record) (b : Bool),
      r.history.length = MAX_HISTORY_MESSAGES → r.kvVersion = MAX_HISTORY_MESSAGES →
      (ts.foldl turnFold (some r, b)).2 = b ∧
        ∀ r1, (ts.foldl turnFold (some r, b)).1 = some r1 →
          r1.history.length = MAX_HISTORY_MESSAGES ∧ r1.kvVersion = MAX_HISTORY_MESSAGES := by
  induction ts with
  | nil =>
    intro r b h4 hk
    refine ⟨rfl, ?_⟩
    intro r1 hr1
    have hr2 : some r = some r1 := hr1
    cases hr2
    exact ⟨h4, hk⟩
  | cons t ts ih =>
    intro r b h4 hk
    have hs := saturated_turn r h4 hk t.1 t.2.1 t.2.2.1 t.2.2.2.1 t.2.2.2.2
    have hstep : turnFold (some r, b) t =
        (some (updateHistoryHybrid (some r) t.1 t.2.1 t.2.2.1 t.2.2.2.1 t.2.2.2.2).1, b) := by
      simp only [turnFold, hs.2.2, Bool.or_false]
    simp only [List.foldl_cons, hstep]
    exact ih _ b hs.1 hs.2.1

end Hybrid

namespace WWC

theorem trimList_eq_drop (l : List Turn) (n : Nat) :
    trimList l n = l.drop (l.length - n) := by
  unfold trimList
  split
  · rfl
  · next h =>
    have h0 : l.length - n = 0 := by omega
    rw [h0, List.drop_zero]

theorem trimList_of_le {l : List Turn} {n : Nat} (h : l.length ≤ n) :
    trimList l n = l := by
  unfold trimList
  rw [if_neg (by omega)]

theorem fetchRecordTurn_small {s : List Turn} {n : Nat} (h : s.length + 2 ≤ n)
    (u a : String) :
    fetchRecordTurn s u a n = s ++ [Turn.mk Role.user u, Turn.mk Role.assistant a] := by
  unfold fetchRecordTurn
  rw [trimList_of_le (show (s ++ [Turn.mk Role.user u]).length ≤ n by simp; omega)]
  rw [trimList_of_le
    (show ((s ++ [Turn.mk Role.user u]) ++ [Turn.mk Role.assistant a]).length ≤ n by
      simp; omega)]
  simp

theorem fetchRecordTurn_full {s : List Turn} {n : Nat} (hL : s.length = n)
    (h2 : 2 ≤ n) (u a : String) :
    fetchRecordTurn s u a n =
      s.drop 2 ++ [Turn.mk Role.user u, Turn.mk Role.assistant a] := by
  unfold fetchRecordTurn
  rw [trimList_eq_drop, trimList_eq_drop]
  have e1 : (s ++ [Turn.mk Role.user u]).length - n = 1 := by simp; omega
  rw [e1]
  have d1 : (s ++ [Turn.mk Role.user u]).drop 1 = s.drop 1 ++ [Turn.mk Role.user u] :=
    List.drop_append_of_le_length (by omega)
  rw [d1]
  have e2 : ((s.drop 1 ++ [Turn.mk Role.user u]) ++ [Turn.mk Role.assistant a]).length - n = 1 := by
    simp [List.length_drop]
    omega
  rw [e2]
  have d2 : ((s.drop 1 ++ [Turn.mk Role.user u]) ++ [Turn.mk Role.assistant a]).drop 1 =
      ((s.drop 1).drop 1 ++ [Turn.mk Role.user u]) ++ [Turn.mk Role.assistant a] := by
    rw [List.drop_append_of_le_length
      (by simp only [List.length_append, List.length_drop, List.length_cons,
        List.length_nil]; omega),
      List.drop_append_of_le_length
      (by simp only [List.length_drop]; omega)]
  rw [d2, List.drop_drop]
  simp

theorem fetchRecordTurn_paired {s : List Turn} {n : Nat} (hp : IsPaired s)
    (hlen : s.length ≤ n) (hn : n % 2 = 0) (u a : String) :
    IsPaired (fetchRecordTurn s u a n) ∧ (fetchRecordTurn s u a n).length ≤ n := by
  have hev := isPaired_length_even hp
  rcases Nat.lt_or_ge (s.length + 2) (n + 1) with h | h
  · rw [fetchRecordTurn_small (by omega) u a]
    refine ⟨isPaired_append_pair hp u a, ?_⟩
    simp only [List.length_append, List.length_cons, List.length_nil]
    omega
  · have hLn : s.length = n := by omega
    rcases Nat.eq_zero_or_pos n with h0 | h0
    · subst h0
      have hs : s = [] := List.eq_nil_of_length_eq_zero hLn
      subst hs
      exact ⟨isPaired_nil, Nat.le_refl _⟩
    · rw [fetchRecordTurn_full hLn (by omega) u a]
      refine ⟨isPaired_append_pair (isPaired_drop_two hp) u a, ?_⟩
      simp only [List.length_append, List.length_drop, List.length_cons, List.length_nil]
      omega

theorem runFetchTurns_paired {n : Nat} (hn : n % 2 = 0)
    (ts : List (String × String)) :
    ∀ s : List Turn, IsPaired s → s.length ≤ n →
      IsPaired (runFetchTurns s ts n) ∧ (runFetchTurns s ts n).length ≤ n := by
  induction ts with
  | nil => intro s hp hlen; exact ⟨hp, hlen⟩
  | cons t ts ih =>
    intro s hp hlen
    have hstep := fetchRecordTurn_paired hp hlen hn t.1 t.2
    exact ih (fetchRecordTurn s t.1 t.2 n) hstep.1 hstep.2

end WWC

namespace MemoryCache

theorem updateHistory_history (c : Option Record) (u a : String) (now : Nat) :
    (updateHistory c u a now).history =
      (if ((getHistory c now).1 ++ [Turn.mk Role.user u, Turn.mk Role.assistant a]).length >
          MAX_HISTORY * 2 then
        ((getHistory c now).1 ++ [Turn.mk Role.user u, Turn.mk Role.assistant a]).drop
          (((getHistory c now).1 ++ [Turn.mk Role.user u, Turn.mk Role.assistant a]).length -
            MAX_HISTORY * 2)
      else (getHistory c now).1 ++ [Turn.mk Role.user u, Turn.mk Role.assistant a]) := rfl

theorem updateHistory_length (c : Option Record) (u a : String) (now : Nat) :
    (updateHistory c u a now).history.length ≤ MAX_HISTORY * 2 := by
  rw [updateHistory_history]
  by_cases h : ((getHistory c now).1 ++ [Turn.mk Role.user u, Turn.mk Role.assistant a]).length >
      MAX_HISTORY * 2
  · rw [if_pos h]
    simp only [List.length_drop, List.length_append, List.length_cons, List.length_nil,
      MAX_HISTORY] at h ⊢
    omega
  · rw [if_neg h]
    simp only [List.length_append, List.length_cons, List.length_nil, MAX_HISTORY] at h ⊢
    omega

end MemoryCache

/-! Claims. -/

/-- C1: starting from an empty record (`durableSyncMark = 0`), with
`WRITE_THRESHOLD = 2` and `H_max = 4`, the first `recordTurn` call
appends 2 turns, yields `delta = 2 >= 2` and schedules a durable write;
after its success the sync mark advances to the history length (2); a
second call again yields `delta = 2`, schedules a second durable write,
and advances the mark to 4. -/
theorem claim_C1_sync_threshold :
    (Hybrid.updateHistoryHybrid none "hi" "hello" 0 true true).2 = true ∧
    ((Hybrid.updateHistoryHybrid none "hi" "hello" 0 true true).1).history.length = 2 ∧
    ((Hybrid.updateHistoryHybrid none "hi" "hello" 0 true true).1).kvVersion = 2 ∧
    (Hybrid.updateHistoryHybrid
      (some (Hybrid.updateHistoryHybrid none "hi" "hello" 0 true true).1)
      "bye" "goodbye" 1 true true).2 = true ∧
    ((Hybrid.updateHistoryHybrid
      (some (Hybrid.updateHistoryHybrid none "hi" "hello" 0 true true).1)
      "bye" "goodbye" 1 true true).1).history.length = 4 ∧
    ((Hybrid.updateHistoryHybrid
      (some (Hybrid.updateHistoryHybrid none "hi" "hello" 0 true true).1)
      "bye" "goodbye" 1 true true).1).kvVersion = 4 := by
  decide

/-- C2: the locally stored history after any `recordTurn` call, from any
starting cache entry, has length at most `H_max`
(`MAX_HISTORY_MESSAGES = 4` in the hybrid variant, `MAX_HISTORY * 2 = 8`
in the pure-memory variant); hence every sequence of calls keeps the
bound after each step. -/
theorem claim_C2_bound_invariant :
    (∀ (c : Option Hybrid.Record) (u a : String) (now : Nat) (kv ws : Bool),
      ((Hybrid.updateHistoryHybrid c u a now kv ws).1).history.length ≤
        Hybrid.MAX_HISTORY_MESSAGES) ∧
    (∀ (c : Option MemoryCache.Record) (u a : String) (now : Nat),
      (MemoryCache.updateHistory c u a now).history.length ≤
        MemoryCache.MAX_HISTORY * 2) := by
  constructor
  · intro c u a now kv ws
    rw [Hybrid.updateHistoryHybrid_history, Hybrid.updateCore_length]
    simp only [Hybrid.MAX_HISTORY_MESSAGES]
    omega
  · intro c u a now
    exact MemoryCache.updateHistory_length c u a now

/-- C3 (counterexample): a cold load accepts a six-message durable
payload and sets `kvVersion = 6`; the next `recordTurn` truncates the
history to 4 while preserving `kvVersion = 6`, so the reachable record
violates `durableSyncMark <= len(history)`. -/
theorem claim_C3_counterexample :
    (Hybrid.runEvents none Hybrid.overlongTrace).map
      (fun r => (r.history.length, r.kvVersion)) = some (4, 6) ∧
    ¬ ((6 : Nat) ≤ 4) := by
  decide

/-- C3 (amended): the sync-mark invariant `durableSyncMark <=
len(history)` holds for every record reachable from the empty cache,
provided every cold-loaded durable payload has length at most
`MAX_HISTORY_MESSAGES` (as is the case for payloads this variant itself
wrote); with an overlong foreign payload it can fail after the next
truncating `recordTurn`. -/
theorem claim_C3_sync_mark_amended (es : List Hybrid.CacheEvent)
    (hbound : ∀ p n, Hybrid.CacheEvent.coldLoad p n ∈ es →
      p.length ≤ Hybrid.MAX_HISTORY_MESSAGES)
    (r : Hybrid.Record) (hr : Hybrid.runEvents none es = some r) :
    r.kvVersion ≤ r.history.length :=
  (Hybrid.syncInv_runEvents es none (fun _ h => Option.noConfusion h) hbound r hr).1

/-- C3 witness: the amended theorem applied to a concrete bounded trace. -/
theorem claim_C3_witness :
    Hybrid.boundedTraceResult.kvVersion ≤ Hybrid.boundedTraceResult.history.length :=
  claim_C3_sync_mark_amended Hybrid.boundedTrace
    (by
      intro p n hmem
      simp only [Hybrid.boundedTrace, List.mem_cons, List.not_mem_nil, or_false] at hmem
      rcases hmem with h | h
      · injection h with h1 h2
        subst h1
        decide
      · exact Hybrid.CacheEvent.noConfusion h)
    Hybrid.boundedTraceResult (by decide)

/-- C4: in `workerWithChat.js` the incoming user message is pushed into
`conversationHistory` before the provider call, and `chatWithOpenAI`
appends it again, so with an empty stored history and the default limit
2 the provider payload contains the new user turn twice — the claim
says it appears exactly once, never both inside the passed history and
as the final appended item. -/
theorem claim_C4_duplicate_user_message :
    WWC.chatWithOpenAIMessages "prompt" (WWC.historyAtProviderCall [] "hi" 2) "hi" =
      [Turn.mk Role.system "prompt", Turn.mk Role.user "hi", Turn.mk Role.user "hi"] ∧
    (WWC.chatWithOpenAIMessages "prompt" (WWC.historyAtProviderCall [] "hi" 2) "hi").count
      (Turn.mk Role.user "hi") = 2 := by
  decide

/-- C5 (counterexample): in the KV-only variant with the odd limit
`CHAT_HISTORY_LIMIT = 3`, two recorded turns from an empty history leave
the stored history `[assistant, user, assistant]`: the first exchange is
split by truncation and the history no longer starts with a user turn. -/
theorem claim_C5_counterexample :
    WWC.runFetchTurns [] [("u1", "a1"), ("u2", "a2")] 3 =
      [Turn.mk Role.assistant "a1", Turn.mk Role.user "u2",
        Turn.mk Role.assistant "a2"] ∧
    alternatesFrom Role.user (WWC.runFetchTurns [] [("u1", "a1"), ("u2", "a2")] 3) =
      false := by
  decide

/-- C5 (amended): histories produced by `recordTurn` sequences alternate
`user, assistant, ...` and consist of whole exchanges in the hybrid
variant (even limit 4) always, and in the KV-only variant whenever the
configured limit is even (the default 2 included); an odd limit can
split an exchange. -/
theorem claim_C5_ordering_amended :
    (∀ (ts : List (String × String × Nat × Bool × Bool)) (r : Hybrid.Record),
      (Hybrid.runTurns none ts).1 = some r →
      alternatesFrom Role.user r.history = true ∧ r.history.length % 2 = 0) ∧
    (∀ n : Nat, n % 2 = 0 → ∀ ts : List (String × String),
      alternatesFrom Role.user (WWC.runFetchTurns [] ts n) = true ∧
        (WWC.runFetchTurns [] ts n).length % 2 = 0) := by
  constructor
  · intro ts r hr
    have hr2 : (ts.foldl Hybrid.turnFold (none, false)).1 = some r := hr
    have hp := Hybrid.isPaired_turnFold ts none false
      (fun _ h => Option.noConfusion h) r hr2
    exact ⟨isPaired_alternates hp, isPaired_length_even hp⟩
  · intro n hn ts
    have hp := (WWC.runFetchTurns_paired hn ts [] isPaired_nil (Nat.zero_le n)).1
    exact ⟨isPaired_alternates hp, isPaired_length_even hp⟩

/-- C5 witness: the amended theorem applied to one hybrid turn and one
KV-only turn at the even default limit 2. -/
theorem claim_C5_witness :
    (alternatesFrom Role.user Hybrid.oneTurnRecord.history = true ∧
      Hybrid.oneTurnRecord.history.length % 2 = 0) ∧
    (alternatesFrom Role.user (WWC.runFetchTurns [] [("x", "y")] 2) = true ∧
      (WWC.runFetchTurns [] [("x", "y")] 2).length % 2 = 0) :=
  ⟨claim_C5_ordering_amended.1 [("x", "y", 0, true, true)] Hybrid.oneTurnRecord rfl,
   claim_C5_ordering_amended.2 2 rfl [("x", "y")]⟩

/-- C6: a read at any time strictly after `expireAt` treats the local
record as absent — the hybrid read behaves exactly as if no local
record existed (falling through to the KV path), and the memory read
returns the empty history; no physical sweep is involved in either. -/
theorem claim_C6_lazy_expiry (now : Nat) (kv : KVRead)
    (parse : String → Option JSValue) :
    (∀ c : Hybrid.Record, c.expireAt < now →
      Hybrid.getHistoryHybrid (some c) now kv parse =
        Hybrid.getHistoryHybrid none now kv parse) ∧
    (∀ c : MemoryCache.Record, c.expireAt < now →
      MemoryCache.getHistory (some c) now = MemoryCache.getHistory none now) := by
  constructor
  · intro c h
    show (if c.expireAt > now then (c.history, some c)
      else Hybrid.getHistoryHybrid.coldLoad now kv parse) =
      Hybrid.getHistoryHybrid.coldLoad now kv parse
    rw [if_neg (by omega)]
  · intro c h
    show (if c.expireAt > now then (c.history, some c) else ([], none)) = ([], none)
    rw [if_neg (by omega)]

/-- C6 witness: the theorem applied to records that expired at time 10,
read at time 11. -/
theorem claim_C6_witness :
    Hybrid.getHistoryHybrid (some Hybrid.expiredRec) 11 KVRead.miss (fun _ => none) =
      Hybrid.getHistoryHybrid none 11 KVRead.miss (fun _ => none) ∧
    MemoryCache.getHistory (some MemoryCache.expiredRec) 11 =
      MemoryCache.getHistory none 11 :=
  ⟨(claim_C6_lazy_expiry 11 KVRead.miss (fun _ => none)).1 Hybrid.expiredRec
      (by decide),
   (claim_C6_lazy_expiry 11 KVRead.miss (fun _ => none)).2 MemoryCache.expiredRec
      (by decide)⟩

/-- C7: when the durable read throws, the payload fails to parse, or it
parses to a non-array value, the cold read path returns the empty
history in both the hybrid variant and `workerWithChat.js`; both reads
are total functions, so no error propagates to the caller. -/
theorem claim_C7_fail_open (now : Nat) (parse : String → Option JSValue) (s : String) :
    (Hybrid.getHistoryHybrid none now KVRead.readError parse).1 = [] ∧
    (parse s = none →
      (Hybrid.getHistoryHybrid none now (KVRead.found s) parse).1 = []) ∧
    (parse s = some JSValue.nonArray →
      (Hybrid.getHistoryHybrid none now (KVRead.found s) parse).1 = []) ∧
    WWC.getHistory true KVRead.readError parse = [] ∧
    (parse s = none → WWC.getHistory true (KVRead.found s) parse = []) ∧
    (parse s = some JSValue.nonArray →
      WWC.getHistory true (KVRead.found s) parse = []) := by
  refine ⟨rfl, ?_, ?_, rfl, ?_, ?_⟩ <;> intro h <;>
    simp [Hybrid.getHistoryHybrid, Hybrid.getHistoryHybrid.coldLoad, WWC.getHistory, h]

/-- C7 witness: the theorem applied to a parse that throws and to a
parse that yields a non-array value. -/
theorem claim_C7_witness :
    (Hybrid.getHistoryHybrid none 0 (KVRead.found "x") (fun _ => none)).1 = [] ∧
    WWC.getHistory true (KVRead.found "x") (fun _ => some JSValue.nonArray) = [] :=
  ⟨(claim_C7_fail_open 0 (fun _ => none) "x").2.1 rfl,
   (claim_C7_fail_open 0 (fun _ => some JSValue.nonArray) "x").2.2.2.2.2 rfl⟩

/-- C8: `trimHistory` on an array returns the last `n` entries when the
input is longer than `n` (the `slice(history.length - n)` branch, shown
both as the literal conditional and through the take/drop decomposition
of the original list) and the input unchanged otherwise; on any
non-array input it returns the empty sequence. -/
theorem claim_C8_trim (l : List Turn) (n : Nat) :
    WWC.trimHistory (JSValue.arr l) n =
      (if l.length > n then l.drop (l.length - n) else l) ∧
    (WWC.trimHistory (JSValue.arr l) n).length = min l.length n ∧
    l.take (l.length - n) ++ WWC.trimHistory (JSValue.arr l) n = l ∧
    WWC.trimHistory JSValue.nonArray n = [] := by
  refine ⟨rfl, ?_, ?_, rfl⟩
  · show (WWC.trimList l n).length = min l.length n
    rw [WWC.trimList_eq_drop]
    simp only [List.length_drop]
    omega
  · show l.take (l.length - n) ++ WWC.trimList l n = l
    rw [WWC.trimList_eq_drop]
    exact List.take_append_drop _ _

/-- C9: once the hybrid record is saturated (history length 4 with
`kvVersion = 4`), every further sequence of `recordTurn` calls schedules
no durable write (`changeCount = 0 < 2` each time) and leaves the record
saturated, so later turns stay unsynced while the record lives. -/
theorem claim_C9_sync_saturation (r : Hybrid.Record)
    (h4 : r.history.length = Hybrid.MAX_HISTORY_MESSAGES)
    (hk : r.kvVersion = Hybrid.MAX_HISTORY_MESSAGES)
    (ts : List (String × String × Nat × Bool × Bool)) :
    (Hybrid.runTurns (some r) ts).2 = false ∧
    ∀ r1, (Hybrid.runTurns (some r) ts).1 = some r1 →
      r1.history.length = Hybrid.MAX_HISTORY_MESSAGES ∧
        r1.kvVersion = Hybrid.MAX_HISTORY_MESSAGES :=
  Hybrid.saturated_turnFold ts r false h4 hk

/-- C9 witness: two further turns on a concrete saturated record
schedule no durable write. -/
theorem claim_C9_witness :
    (Hybrid.runTurns (some Hybrid.satRec) Hybrid.satTurns).2 = false :=
  (claim_C9_sync_saturation Hybrid.satRec (by decide) (by decide) Hybrid.satTurns).1

/-- C10: the GET path of `workerWithChat.js` uses the Promise returned
by `checkSignature` directly as the `if` condition without awaiting it;
a Promise object is always truthy, so every GET request past the
crawler filter gets status 200 with the `echostr` value, identically
for any two signature/timestamp/nonce/token inputs (and any digest
function). -/
theorem claim_C10_signature_noninterference
    (sig1 ts1 nonce1 tok1 sig2 ts2 nonce2 tok2 echostr : String)
    (f1 f2 : String → String) :
    WWC.handleGet sig1 ts1 nonce1 echostr tok1 f1 = WWC.Resp.mk 200 echostr ∧
    WWC.handleGet sig1 ts1 nonce1 echostr tok1 f1 =
      WWC.handleGet sig2 ts2 nonce2 echostr tok2 f2 := by
  constructor <;> rfl

end CFWechat
